import Mathlib

/-!
# zero-downtime: session store, chat controller, engines and model registries

A shallow embedding of the Go packages `pkg/types`, `internal/session`,
`internal/chat`, `internal/models`, `internal/ollama`, of the handlers and
routes of `internal/api` and of the startup code of `main`, followed by
theorems about them.

Conventions of the embedding:

* a Go `error` result is an `Option GoError` (`none` is `nil`);
* a method with a pointer receiver takes the receiver's state and returns the
  new state next to its results;
* `time.Now()` readings are explicit arguments;
* the HTTP round trip and the JSON decoder are a state machine handed to the
  client (`ollama.Net`);
* calls to the logger have no effect on any modelled state and are left out;
* the mutex of `MemoryStore` is not modelled: every definition here describes
  one call running alone.
-/

namespace ZeroDowntime

/-! ## Go values -/

/-- Instants as returned by `time.Now()`, in nanoseconds. The zero `time.Time` is `0`. -/
abbrev Time := Int

/-- Go `time.Duration`: a signed count of nanoseconds. -/
abbrev Duration := Int

/-- Go error values, told apart by where they come from.
`errors.New` allocates a new value on every call, so a value built inside a
function body is never identical to a package-level error variable; two
values that differ here are different values in Go. -/
inductive GoError where
  /-- The value of `errors.New(msg)` evaluated when the enclosing function runs. -/
  | errorsNew (msg : String)
  /-- A package-level error variable, named by its identifier. -/
  | pkgVar (name : String)
  /-- The value of `fmt.Errorf` with the formatted message. -/
  | errorf (msg : String)
  /-- An error handed back by a collaborator (HTTP transport, JSON decoder, engine). -/
  | external (msg : String)
  deriving DecidableEq, Repr

/-- Go map indexing `m[k]` on a map kept as an association list; `zero` is the
zero value returned for an absent key. -/
def mapIndex {κ ν : Type} [DecidableEq κ] (m : List (κ × ν)) (k : κ) (zero : ν) : ν :=
  match m with
  | [] => zero
  | (k', v) :: rest => if k' = k then v else mapIndex rest k zero

/-- Go map assignment `m[k] = v`: overwrite the entry of `k`, or add one. -/
def mapSet {κ ν : Type} [DecidableEq κ] (m : List (κ × ν)) (k : κ) (v : ν) : List (κ × ν) :=
  match m with
  | [] => [(k, v)]
  | (k', v') :: rest => if k' = k then (k, v) :: rest else (k', v') :: mapSet rest k v

/-- Whether `k` is a key of the map (the `ok` of `_, ok := m[k]`). -/
def mapHas {κ ν : Type} [DecidableEq κ] (m : List (κ × ν)) (k : κ) : Bool :=
  match m with
  | [] => false
  | (k', _) :: rest => if k' = k then true else mapHas rest k

/-! ## pkg/types -/

namespace types

/-- Go `type Role string`. -/
abbrev Role := String

def RoleUser : Role := "user"

def RoleAssistant : Role := "assistant"

/-- Go `types.Message`. -/
structure Message where
  Role : Role
  Content : String
  Timestamp : Time
  deriving DecidableEq, Repr

/-- The zero value `types.Message{}`. -/
def Message.zero : Message := { Role := "", Content := "", Timestamp := 0 }

end types

open types

/-- Go builtin `make([]types.Message, n)`: `n` zero messages. -/
def makeMessages (n : Nat) : List Message := List.replicate n Message.zero

/-- Go builtin `copy(dst, src)`: the first `min (len dst) (len src)` elements
of `dst` are overwritten by those of `src`; the result is the new `dst`. -/
def copy (dst src : List Message) : List Message :=
  src.take (min dst.length src.length) ++ dst.drop (min dst.length src.length)

/-! ## internal/session -/

namespace session

/-- The `Store` interface, over an implementation with state `σ`. -/
structure Store (σ : Type) where
  Append : σ → String → Message → Option GoError × σ
  Get : σ → String → (List Message × Option GoError) × σ

/-- State of a `MemoryStore`: its two maps. -/
structure MemoryStore where
  data : List (String × List Message)
  updated : List (String × Time)
  deriving DecidableEq, Repr

def NewMemoryStore : MemoryStore := { data := [], updated := [] }

/-- Go method `MemoryStore.Append`: the returned error and the store afterwards. -/
def MemoryStore.Append (s : MemoryStore) (sessionID : String) (m : Message) :
    Option GoError × MemoryStore :=
  if sessionID = "" then
    (some (GoError.errorsNew "empty session id"), s)
  else
    (none, { s with data := mapSet s.data sessionID (mapIndex s.data sessionID [] ++ [m]) })

/-- Go method `MemoryStore.Get`: the returned slice and error. The store is only read. -/
def MemoryStore.Get (s : MemoryStore) (sessionID : String) : List Message × Option GoError :=
  let msgs := mapIndex s.data sessionID []
  let out := makeMessages msgs.length
  let out := copy out msgs
  (out, none)

/-- Go method `MemoryStore.Touch`, with the reading of `time.Now()` as `now`. -/
def MemoryStore.Touch (s : MemoryStore) (sessionID : String) (now : Time) : MemoryStore :=
  let data := if mapHas s.data sessionID then s.data else mapSet s.data sessionID []
  { data := data, updated := mapSet s.updated sessionID now }

/-- Go type `*MemoryStore` as an implementation of `Store`. -/
def MemoryStore.asStore : Store MemoryStore where
  Append := MemoryStore.Append
  Get := fun s sessionID => (MemoryStore.Get s sessionID, s)

/-- A sequence of `Append` calls, one after the other: the error of each call
and the final store. -/
def appendAll (s : MemoryStore) : List (String × Message) → List (Option GoError) × MemoryStore
  | [] => ([], s)
  | (sessionID, m) :: rest =>
    let r := MemoryStore.Append s sessionID m
    let rs := appendAll r.2 rest
    (r.1 :: rs.1, rs.2)

/-- The messages of the calls made to session `sid` whose `Append` returned no
error, in call order. -/
def succeededFor (sid : String) : List (String × Message) → List (Option GoError) → List Message
  | (sessionID, m) :: calls, r :: results =>
    if sessionID = sid ∧ r = none then m :: succeededFor sid calls results
    else succeededFor sid calls results
  | _, _ => []

end session

open session

/-! ## The fragment of `fmt.Sprintf` used by the engines -/

/-- Go function `fmt.Sprintf` on a format with `%s` and `%%` verbs and string operands,
as a function on characters: `%s` is replaced by the next operand verbatim,
a missing operand prints `%!s(MISSING)` and operands left over are reported
in a trailing `%!(EXTRA ...)`. -/
def sprintfAux : List Char → List String → List Char
  | [], [] => []
  | [], a :: as =>
    "%!(EXTRA ".data ++ (", ".intercalate ((a :: as).map fun x => "string=" ++ x)).data ++ [')']
  | '%' :: 's' :: rest, a :: as => a.data ++ sprintfAux rest as
  | '%' :: 's' :: rest, [] => "%!s(MISSING)".data ++ sprintfAux rest []
  | '%' :: '%' :: rest, as => '%' :: sprintfAux rest as
  | c :: rest, as => c :: sprintfAux rest as

def Sprintf (format : String) (args : List String) : String :=
  String.mk (sprintfAux format.data args)

/-- Go substring test `strings.Contains(s, sub)`, as a proposition. -/
def Contains (s sub : String) : Prop := sub.data <:+: s.data

/-! ## internal/chat -/

namespace chat

/-- The `Engine` interface, over an implementation with state `ε`:
`Generate` returns `(text, latency, err)` and the state afterwards. -/
structure Engine (ε : Type) where
  Generate : ε → String → String → (String × Duration × Option GoError) × ε

structure EchoEngine where
  minLatency : Duration
  deriving DecidableEq, Repr

def NewEchoEngine (minLatency : Duration) : EchoEngine := { minLatency := minLatency }

/-- Go method `EchoEngine.Generate`. `start` is the reading of `time.Now()` on entry and
`overhead` the time the call takes besides sleeping; `time.Sleep` pauses for
the requested duration, and `time.Since start` is the clock on return minus
`start`. -/
def EchoEngine.Generate (e : EchoEngine) (start : Time) (overhead : Nat)
    (model prompt : String) : String × Duration × Option GoError :=
  let afterSleep := if e.minLatency > 0 then start + e.minLatency else start
  let text := Sprintf "(demo:%s) you said: %s" [model, prompt]
  let finish := afterSleep + overhead
  (text, finish - start, none)

/-- An `EchoEngine` as an `Engine` whose state is the clock. -/
def EchoEngine.asEngine (e : EchoEngine) (overhead : Nat) : Engine Time where
  Generate := fun clock model prompt =>
    let r := e.Generate clock overhead model prompt
    (r, clock + r.2.1)

/-- Go method `Controller.Chat` for a controller built from `sessions` and `eng`.
`w` holds the state of the store and of the engine; `now₁` and `now₂` are the
readings of `time.Now()` for the user and for the assistant message. -/
def Controller.Chat {σ ε : Type} (sessions : Store σ) (eng : Engine ε) (w : σ × ε)
    (now₁ now₂ : Time) (sessionID model prompt : String) :
    (Message × Duration × Option GoError) × (σ × ε) :=
  let user : Message := { Role := RoleUser, Content := prompt, Timestamp := now₁ }
  match sessions.Append w.1 sessionID user with
  | (some err, st₁) => ((Message.zero, 0, some err), (st₁, w.2))
  | (none, st₁) =>
    match eng.Generate w.2 model prompt with
    | ((_, _, some err), e₁) => ((Message.zero, 0, some err), (st₁, e₁))
    | ((text, latency, none), e₁) =>
      let assistant : Message := { Role := RoleAssistant, Content := text, Timestamp := now₂ }
      match sessions.Append st₁ sessionID assistant with
      | (some err, st₂) => ((Message.zero, 0, some err), (st₂, e₁))
      | (none, st₂) => ((assistant, latency, none), (st₂, e₁))

/-- An engine that also counts how often its `Generate` is invoked. -/
def Engine.counting {ε : Type} (eng : Engine ε) : Engine (ε × Nat) where
  Generate := fun s model prompt =>
    let r := eng.Generate s.1 model prompt
    (r.1, (r.2, s.2 + 1))

/-- An engine that fails on every call, as a remote engine whose server is down. -/
def failingEngine : Engine Unit where
  Generate := fun _ _ _ => (("", 0, some (GoError.external "connection refused")), ())

/-- An engine that follows a script, one entry per call: it fails on `none`
and on an exhausted script, and answers `text` on `some text`. -/
def scriptedEngine : Engine (List (Option String)) where
  Generate := fun script _ _ =>
    match script with
    | [] => (("", 0, some (GoError.external "script exhausted")), [])
    | none :: rest => (("", 0, some (GoError.external "engine down")), rest)
    | some text :: rest => ((text, 1, none), rest)

/-- A store that also records the arguments of every `Append` call made on it. -/
def Store.recording {σ : Type} (S : Store σ) : Store (σ × List (String × Message)) where
  Append := fun s sessionID m =>
    let r := S.Append s.1 sessionID m
    (r.1, (r.2, s.2 ++ [(sessionID, m)]))
  Get := fun s sessionID =>
    let r := S.Get s.1 sessionID
    (r.1, (r.2, s.2))

/-- A store that also counts how often its `Get` is invoked. -/
def Store.countingGet {σ : Type} (S : Store σ) : Store (σ × Nat) where
  Append := fun s sessionID m =>
    let r := S.Append s.1 sessionID m
    (r.1, (r.2, s.2))
  Get := fun s sessionID =>
    let r := S.Get s.1 sessionID
    (r.1, (r.2, s.2 + 1))

/-- The arguments of one `Controller.Chat` call, with its two clock readings. -/
structure ChatCall where
  sessionID : String
  model : String
  prompt : String
  now₁ : Time
  now₂ : Time
  deriving DecidableEq, Repr

/-- Sequential `Controller.Chat` calls on a `MemoryStore`, results dropped. -/
def runChats {ε : Type} (eng : Engine ε) (w : MemoryStore × ε) : List ChatCall → MemoryStore × ε
  | [] => w
  | c :: rest =>
    runChats eng
      (Controller.Chat MemoryStore.asStore eng w c.now₁ c.now₂ c.sessionID c.model c.prompt).2 rest

/-- The messages that the call `c`, made with the engine in state `e`, adds to
the transcript of session `sid` in a `MemoryStore`: nothing when the call is
for another session or has the empty session id, else the user message,
followed by the assistant message when the engine succeeds. -/
def turnOf {ε : Type} (eng : Engine ε) (e : ε) (c : ChatCall) (sid : String) : List Message :=
  if c.sessionID = sid ∧ c.sessionID ≠ "" then
    match (eng.Generate e c.model c.prompt).1 with
    | (_, _, some _) => [{ Role := RoleUser, Content := c.prompt, Timestamp := c.now₁ }]
    | (text, _, none) =>
      [{ Role := RoleUser, Content := c.prompt, Timestamp := c.now₁ },
       { Role := RoleAssistant, Content := text, Timestamp := c.now₂ }]
  else []

end chat

open chat

/-! ## internal/models -/

namespace ollama

/-- Go `ollama.TagModel`, without its untyped `Details` field. -/
structure TagModel where
  Name : String
  Model : String
  Digest : String
  Size : Int
  ModifiedAt : Time
  deriving DecidableEq, Repr

end ollama

namespace models

/-- Modelled from the spec: the declaration of the package variable
`ErrUnknownModel`, used by `OllamaManager.Healthy`, is not among the sources;
it is the registry's `UnknownModel` error, a package-level error value. -/
def ErrUnknownModel : GoError := GoError.pkgVar "ErrUnknownModel"

structure StaticManager where
  items : List String
  deriving DecidableEq, Repr

def NewStaticManager (items : List String) : StaticManager := { items := items }

/-- The loop of `StaticManager.Healthy` with the statement after it. -/
def StaticManager.healthyFrom (model : String) : List String → Option GoError
  | [] => some (GoError.errorsNew "unknown model")
  | x :: rest => if x = model then none else StaticManager.healthyFrom model rest

def StaticManager.Healthy (m : StaticManager) (model : String) : Option GoError :=
  StaticManager.healthyFrom model m.items

def StaticManager.List (m : StaticManager) : List String × Option GoError :=
  ([] ++ m.items, none)

/-- The loop of `OllamaManager.Healthy` with the statement after it. -/
def OllamaManager.healthyFrom (model : String) : List ollama.TagModel → Option GoError
  | [] => some ErrUnknownModel
  | it :: rest => if it.Name = model then none else OllamaManager.healthyFrom model rest

/-- Go method `OllamaManager.Healthy`; `tags` is what the call `m.c.Tags(ctx)` returns. -/
def OllamaManager.Healthy (tags : List ollama.TagModel × Option GoError) (model : String) :
    Option GoError :=
  match tags with
  | (_, some err) => some err
  | (items, none) => OllamaManager.healthyFrom model items

/-- Go method `OllamaManager.List`; `tags` is what the call `m.c.Tags(ctx)` returns. -/
def OllamaManager.List (tags : List ollama.TagModel × Option GoError) :
    List String × Option GoError :=
  match tags with
  | (_, some err) => ([], some err)
  | (items, none) => (items.foldl (fun out it => out ++ [it.Name]) [], none)

end models

open models

/-! ## internal/api -/

namespace api

/-- The JSON body of `POST /api/chat` once decoded; a field absent from the
JSON text keeps its zero value `""`. -/
structure ChatRequest where
  Model : String
  Message : String
  SessionID : String
  deriving DecidableEq, Repr

/-- What a handler writes back. Timestamps are kept as instants (their
RFC 3339 rendering is left out). -/
inductive Body where
  /-- Plain text written by `http.Error(w, msg, status)` or `http.NotFound`. -/
  | text (msg : String)
  /-- The JSON object with the one key `error` and a literal message. -/
  | errorText (msg : String)
  /-- The JSON object with the one key `error` holding `err.Error()`. -/
  | errorOf (err : GoError)
  /-- The reply of the chat handler. -/
  | chat (response : String) (timestamp : Time) (latency_ms : Int) (model session_id : String)
  /-- The reply of the history handler: `(role, content)` pairs. -/
  | history (entries : List (String × String))
  /-- The reply of the models handler: the JSON object with the one key `models`. -/
  | models (names : List String)
  deriving DecidableEq, Repr

structure Response where
  status : Nat
  body : Body
  deriving DecidableEq, Repr

/-- Go method `Handlers.Chat`. `method` is `r.Method`, `decoded` the outcome of decoding
the request body (`none` when the decoder fails). -/
def Handlers.Chat {σ ε : Type} (sessions : Store σ) (eng : Engine ε) (w : σ × ε)
    (now₁ now₂ : Time) (method : String) (decoded : Option ChatRequest) :
    Response × (σ × ε) :=
  if method ≠ "POST" then
    ({ status := 405, body := Body.text "method not allowed" }, w)
  else
    match decoded with
    | none => ({ status := 400, body := Body.errorText "invalid json" }, w)
    | some req =>
      if req.Model = "" ∨ req.Message = "" then
        ({ status := 400, body := Body.errorText "model and message are required" }, w)
      else
        let sessionID := if req.SessionID = "" then "default" else req.SessionID
        match Controller.Chat sessions eng w now₁ now₂ sessionID req.Model req.Message with
        | ((_, _, some err), w₁) => ({ status := 500, body := Body.errorOf err }, w₁)
        | ((msg, latency, none), w₁) =>
          ({ status := 200,
             body := Body.chat msg.Content msg.Timestamp (latency.tdiv 1000000) req.Model
               sessionID }, w₁)

/-- Go method `Handlers.GetHistory`; `path` is `r.URL.Path`. -/
def Handlers.GetHistory {σ : Type} (sessions : Store σ) (st : σ) (path : String) :
    Response × σ :=
  let pfx := "/api/history/"
  if ¬ pfx.data <+: path.data then
    ({ status := 404, body := Body.text "404 page not found" }, st)
  else
    let sessionID := String.mk (path.data.drop pfx.data.length)
    if sessionID = "" then
      ({ status := 400, body := Body.errorText "missing session_id" }, st)
    else
      match sessions.Get st sessionID with
      | ((_, some err), st₁) => ({ status := 500, body := Body.errorOf err }, st₁)
      | ((history, none), st₁) =>
        ({ status := 200,
           body := Body.history (history.foldl (fun out m => out ++ [(m.Role, m.Content)]) []) },
          st₁)

end api

open api

/-! ## Formatting with `%d` and `%w`, error texts -/

/-- Go method `Error()` of the error values above. The text of a package
variable is not in the sources; its identifier stands for it. -/
def GoError.Error : GoError → String
  | GoError.errorsNew msg => msg
  | GoError.pkgVar name => name
  | GoError.errorf msg => msg
  | GoError.external msg => msg

/-- An operand handed to `fmt.Sprintf` or `fmt.Errorf`. -/
inductive Operand where
  | str (s : String)
  | int (n : Int)
  | err (e : GoError)
  deriving DecidableEq, Repr

/-- What one verb prints for one operand: `%s` a string or the text of an
error, `%d` an integer in decimal, `%w` the text of an error; any other
pairing prints a bad-verb report (no format in the repository has one). -/
def Operand.format (verb : Char) : Operand → List Char
  | Operand.str s =>
    if verb = 's' then s.data
    else '%' :: '!' :: verb :: ("(string=" ++ s ++ ")").data
  | Operand.int n =>
    if verb = 'd' then (toString n).data
    else '%' :: '!' :: verb :: ("(int=" ++ toString n ++ ")").data
  | Operand.err e =>
    if verb = 's' ∨ verb = 'w' then e.Error.data
    else '%' :: '!' :: verb :: ("(*errors.errorString=" ++ e.Error ++ ")").data

/-- Go function `fmt.Sprintf` on formats with the verbs `%s`, `%d`, `%w` and `%%`, as a
function on characters. Operands left over at the end are not reported. -/
def sprintfOps : List Char → List Operand → List Char
  | [], _ => []
  | '%' :: '%' :: rest, ops => '%' :: sprintfOps rest ops
  | '%' :: verb :: rest, op :: ops => op.format verb ++ sprintfOps rest ops
  | '%' :: verb :: rest, [] => '%' :: '!' :: verb :: "(MISSING)".data ++ sprintfOps rest []
  | c :: rest, ops => c :: sprintfOps rest ops

/-- Go function `fmt.Errorf`: an error whose text is the formatted string. The chain
that `%w` keeps for `errors.Unwrap` is not modelled; nothing in the
repository unwraps an error. -/
def Errorf (format : String) (ops : List Operand) : GoError :=
  GoError.errorf (String.mk (sprintfOps format.data ops))

/-! ## internal/ollama -/

namespace ollama

/-- The part of `*http.Response` the client reads. -/
structure HttpResponse where
  StatusCode : Int
  Status : String
  Body : String
  deriving DecidableEq, Repr

/-- The payload a request carries, before `json.Marshal`. -/
inductive Payload where
  | none
  | generate (model prompt : String) (stream : Bool)
  | pull (name : String) (stream : Bool)
  deriving DecidableEq, Repr

/-- The request handed to `c.client.Do`. -/
structure Request where
  Method : String
  URL : String
  Payload : Payload
  deriving DecidableEq, Repr

/-- What lies outside the program, with state `ρ`: the HTTP round trip
`c.client.Do(req)`, which answers with a response or a transport error, and
the JSON decoder applied to a response body for the two shapes the client
decodes. -/
structure Net (ρ : Type) where
  Do : ρ → Request → Except GoError HttpResponse × ρ
  decodeGenerate : String → Except GoError String
  decodeTags : String → Except GoError (List TagModel)

/-- Go `ollama.Client`, without its logger and `http.Client`. -/
structure Client where
  baseURL : String
  deriving DecidableEq, Repr

def NewClient (baseURL : String) : Client := { baseURL := baseURL }

/-- Go method `Client.Ping`. -/
def Client.Ping {ρ : Type} (N : Net ρ) (c : Client) (k : ρ) : Option GoError × ρ :=
  let req : Request :=
    { Method := "GET", URL := Sprintf "%s/api/version" [c.baseURL], Payload := Payload.none }
  match N.Do k req with
  | (Except.error err, k₁) => (some err, k₁)
  | (Except.ok res, k₁) =>
    if res.StatusCode > 400 then
      (some (Errorf "ollama ping status: %d" [Operand.int res.StatusCode]), k₁)
    else (none, k₁)

/-- Go method `Client.Generate`; `elapsed` is the reading of `time.Since(start)`. -/
def Client.Generate {ρ : Type} (N : Net ρ) (c : Client) (elapsed : Duration) (k : ρ)
    (model prompt : String) : (String × Duration × Option GoError) × ρ :=
  let req : Request :=
    { Method := "POST", URL := Sprintf "%s/api/generate" [c.baseURL],
      Payload := Payload.generate model prompt false }
  match N.Do k req with
  | (Except.error err, k₁) => (("", 0, some err), k₁)
  | (Except.ok res, k₁) =>
    if res.StatusCode ≥ 400 then
      (("", 0, some (Errorf "ollama generate: %s" [Operand.str res.Body])), k₁)
    else
      match N.decodeGenerate res.Body with
      | Except.error err => (("", 0, some err), k₁)
      | Except.ok response => ((response, elapsed, none), k₁)

/-- Go method `Client.Tags`. -/
def Client.Tags {ρ : Type} (N : Net ρ) (c : Client) (k : ρ) :
    (List TagModel × Option GoError) × ρ :=
  let req : Request :=
    { Method := "GET", URL := Sprintf "%s/api/tags" [c.baseURL], Payload := Payload.none }
  match N.Do k req with
  | (Except.error err, k₁) => (([], some err), k₁)
  | (Except.ok res, k₁) =>
    if res.StatusCode ≥ 400 then
      (([], some (Errorf "ollama tags: %s" [Operand.str res.Status])), k₁)
    else
      match N.decodeTags res.Body with
      | Except.error err => (([], some err), k₁)
      | Except.ok models => ((models, none), k₁)

/-- Go method `Client.Pull`. -/
def Client.Pull {ρ : Type} (N : Net ρ) (c : Client) (k : ρ) (name : String) :
    Option GoError × ρ :=
  if name = "" then (some (GoError.errorsNew "empty model name"), k)
  else
    let req : Request :=
      { Method := "POST", URL := Sprintf "%s/api/pull" [c.baseURL],
        Payload := Payload.pull name false }
    match N.Do k req with
    | (Except.error err, k₁) => (some err, k₁)
    | (Except.ok res, k₁) =>
      let body := res.Body
      if res.StatusCode ≥ 400 then
        (some (Errorf "ollama pull: %s" [Operand.str body]), k₁)
      else (none, k₁)

/-- A network that also records every request handed to `Do`. -/
def Net.logging {ρ : Type} (N : Net ρ) : Net (ρ × List Request) where
  Do := fun s req =>
    let r := N.Do s.1 req
    (r.1, (r.2, s.2 ++ [req]))
  decodeGenerate := N.decodeGenerate
  decodeTags := N.decodeTags

end ollama

open ollama

/-- A network that answers from a script, one entry per request, and with
a transport error once the script is used up. Its tag decoder reads every
character of the body as one model name. -/
def scriptedNet : Net (List (Except GoError HttpResponse)) where
  Do := fun script _ =>
    match script with
    | [] => (Except.error (GoError.external "connection refused"), [])
    | r :: rest => (r, rest)
  decodeGenerate := fun body => Except.ok body
  decodeTags := fun body =>
    Except.ok (body.data.map fun ch =>
      { Name := String.mk [ch], Model := "", Digest := "", Size := 0, ModifiedAt := 0 })

/-- A network that answers every request with `200 OK` and whose tag decoder
yields tags with the given names. -/
def fixedTagsNet (names : List String) : Net Unit where
  Do := fun _ _ => (Except.ok { StatusCode := 200, Status := "200 OK", Body := "" }, ())
  decodeGenerate := fun body => Except.ok body
  decodeTags := fun _ =>
    Except.ok (names.map fun n =>
      { Name := n, Model := n, Digest := "", Size := 0, ModifiedAt := 0 })

/-! ## The registries behind the `Manager` interface -/

namespace models

/-- The `Manager` interface, over an implementation with state `μ`. -/
structure Manager (μ : Type) where
  Healthy : μ → String → Option GoError × μ
  List : μ → (List String × Option GoError) × μ

/-- Go type `*StaticManager` as an implementation of `Manager`. -/
def StaticManager.asManager : Manager StaticManager where
  Healthy := fun m model => (StaticManager.Healthy m model, m)
  List := fun m => (StaticManager.List m, m)

/-- Go type `*OllamaManager`, built on the client `c`, as an implementation of
`Manager`; its state is that of the network. -/
def OllamaManager.asManager {ρ : Type} (N : Net ρ) (c : Client) : Manager ρ where
  Healthy := fun k model =>
    let r := Client.Tags N c k
    (OllamaManager.Healthy r.1 model, r.2)
  List := fun k =>
    let r := Client.Tags N c k
    (OllamaManager.List r.1, r.2)

end models

/-! ## internal/api: models handler and routes -/

namespace api

/-- Go method `Handlers.ListModels`, for handlers built on the registry `models` in
state `m`. -/
def Handlers.ListModels {μ : Type} (_models : Manager μ) (m : μ) : Response × μ :=
  ({ status := 200, body := Body.models ["llama2", "mistral", "phi3"] }, m)

/-- Go function `RegisterRoutes`: the `(method, pattern)` pairs registered on the
router, for handlers whose field `Admin` is `admin` (`none` is `nil`). -/
def RegisterRoutes (admin : Option Client) : List (String × String) :=
  [("GET", "/healthz"), ("GET", "/version"), ("POST", "/api/chat"), ("GET", "/api/models"),
   ("GET", "/api/history/")]
    ++ (match admin with
        | some _ => [("POST", "/admin/models/pull")]
        | none => [])

end api

/-! ## main: readiness probe and choice of the backend -/

namespace main

/-- The loop of `check` that fills the set `have` with the names of the tags. -/
def haveOf (tags : List TagModel) : List (String × Unit) :=
  tags.foldl (fun h t => mapSet h t.Name ()) []

/-- The loop of `check` over the required models, with the `return nil` after it. -/
def checkModels (haveSet : List (String × Unit)) : List String → Option GoError
  | [] => none
  | m :: rest =>
    if ¬ mapHas haveSet m then some (Errorf "model not present yet: %s" [Operand.str m])
    else checkModels haveSet rest

/-- The closure `check` of `waitForOllama`: one readiness attempt. -/
def waitForOllama.check {ρ : Type} (N : Net ρ) (oc : Client) (models : List String) (k : ρ) :
    Option GoError × ρ :=
  match Client.Ping N oc k with
  | (some err, k₁) => (some (Errorf "ollama not reachable: %w" [Operand.err err]), k₁)
  | (none, k₁) =>
    if models.length = 0 then (none, k₁)
    else
      match Client.Tags N oc k₁ with
      | ((_, some err), k₂) => (some (Errorf "list tags: %w" [Operand.err err]), k₂)
      | ((tags, none), k₂) => (checkModels (haveOf tags) models, k₂)

/-- What the `select` of `waitForOllama` receives: a tick of the ticker, or
the end of the context, with the value of `ctx.Err()`. -/
inductive Event where
  | tick
  | done (err : GoError)
  deriving DecidableEq, Repr

/-- How a run of `waitForOllama` over a finite trace of events ends: still
waiting in `select` when the trace is used up, stopped by the panic of
`time.NewTicker` on a non-positive interval, or returned. -/
inductive WaitResult where
  | blocked
  | panicked
  | returned (err : Option GoError)
  deriving DecidableEq, Repr

/-- The `for`/`select` loop of `waitForOllama` over the events it receives. -/
def waitForOllama.loop {ρ : Type} (N : Net ρ) (oc : Client) (models : List String) :
    ρ → List Event → WaitResult × ρ
  | k, [] => (WaitResult.blocked, k)
  | k, Event.done err :: _ => (WaitResult.returned (some err), k)
  | k, Event.tick :: rest =>
    match waitForOllama.check N oc models k with
    | (none, k₁) => (WaitResult.returned none, k₁)
    | (some _, k₁) => waitForOllama.loop N oc models k₁ rest

/-- Go function `waitForOllama`, run over the trace `events`. -/
def waitForOllama {ρ : Type} (N : Net ρ) (oc : Client) (models : List String)
    (interval : Duration) (k : ρ) (events : List Event) : WaitResult × ρ :=
  if interval ≤ 0 then (WaitResult.panicked, k)
  else
    match waitForOllama.check N oc models k with
    | (none, k₁) => (WaitResult.returned none, k₁)
    | (some _, k₁) => waitForOllama.loop N oc models k₁ events

/-- The state of the network before attempt number `i` of a run in which
every earlier attempt failed (attempt `0` is the immediate one). -/
def attemptState {ρ : Type} (N : Net ρ) (oc : Client) (models : List String) (k : ρ) : Nat → ρ
  | 0 => k
  | i + 1 => attemptState N oc models (waitForOllama.check N oc models k).2 i

/-- Whether attempt number `i` succeeds. -/
def attemptOk {ρ : Type} (N : Net ρ) (oc : Client) (models : List String) (k : ρ) (i : Nat) :
    Prop :=
  (waitForOllama.check N oc models (attemptState N oc models k i)).1 = none

/-- The number of ticks in the trace before its first `done`. -/
def ticksBefore : List Event → Nat
  | [] => 0
  | Event.done _ :: _ => 0
  | Event.tick :: rest => ticksBefore rest + 1

/-- The first `done` of the trace, if any, with its error. -/
def firstDone : List Event → Option GoError
  | [] => none
  | Event.done err :: _ => some err
  | Event.tick :: rest => firstDone rest

/-- The engine `main` hands to the controller. -/
inductive EngineChoice where
  | ollama (c : Client)
  | echo (e : EchoEngine)
  deriving DecidableEq, Repr

/-- The registry `main` hands to the handlers. -/
inductive ManagerChoice where
  | ollama (c : Client)
  | static (m : StaticManager)
  deriving DecidableEq, Repr

/-- What `main` has chosen once the handlers are built. -/
structure Wiring where
  engine : EngineChoice
  modelsMgr : ManagerChoice
  ollamaActive : Bool
  Admin : Option Client
  deriving DecidableEq, Repr

/-- The final `oc.Ping` of `main` and the branch taken on its result, with the
later assignment of `h.Admin`. -/
def choose {ρ : Type} (N : Net ρ) (oc : Client) (k : ρ) : Wiring × ρ :=
  match Client.Ping N oc k with
  | (none, k₁) =>
    ({ engine := EngineChoice.ollama oc, modelsMgr := ManagerChoice.ollama oc,
       ollamaActive := true, Admin := some oc }, k₁)
  | (some _, k₁) =>
    ({ engine := EngineChoice.echo (NewEchoEngine (30 * 1000000)),
       modelsMgr := ManagerChoice.static (NewStaticManager ["llama2", "mistral", "phi3"]),
       ollamaActive := false, Admin := none }, k₁)

/-- The start of `main`, from the creation of the client to the handlers:
the probe when `waitEnabled`, whose result is only logged, then the final
ping and the choice. The result is `none` when the probe does not return.
The set-up of the UI between choice and routes, which can end the process,
is left out. -/
def startup {ρ : Type} (N : Net ρ) (ollamaURL : String) (waitEnabled : Bool)
    (waitInterval : Duration) (waitModels : List String) (events : List Event) (k : ρ) :
    Option Wiring × ρ :=
  let oc := NewClient ollamaURL
  if waitEnabled then
    match waitForOllama N oc waitModels waitInterval k events with
    | (WaitResult.returned _, k₁) => (some (choose N oc k₁).1, (choose N oc k₁).2)
    | (_, k₁) => (none, k₁)
  else (some (choose N oc k).1, (choose N oc k).2)

end main

/-! ## Lemmas on the map operations -/

theorem mapIndex_mapSet_same {κ ν : Type} [DecidableEq κ] (m : List (κ × ν)) (k : κ) (v zero : ν) :
    mapIndex (mapSet m k v) k zero = v := by
  induction m with
  | nil => simp [mapSet, mapIndex]
  | cons p rest ih =>
    obtain ⟨k', v'⟩ := p
    by_cases h : k' = k
    · simp [mapSet, mapIndex, h]
    · simp [mapSet, mapIndex, h, ih]

theorem mapIndex_mapSet_other {κ ν : Type} [DecidableEq κ] (m : List (κ × ν)) (k k₂ : κ)
    (v zero : ν) (hne : k ≠ k₂) :
    mapIndex (mapSet m k v) k₂ zero = mapIndex m k₂ zero := by
  induction m with
  | nil => simp [mapSet, mapIndex, hne]
  | cons p rest ih =>
    obtain ⟨k', v'⟩ := p
    by_cases h : k' = k
    · subst h
      simp [mapSet, mapIndex, hne]
    · simp [mapSet, mapIndex, h, ih]

theorem copy_makeMessages (msgs : List Message) :
    copy (makeMessages msgs.length) msgs = msgs := by
  simp [copy, makeMessages]

theorem Get_eq (s : MemoryStore) (sid : String) :
    MemoryStore.Get s sid = (mapIndex s.data sid [], none) := by
  simp [MemoryStore.Get, copy_makeMessages]

/-! ## Sequences of appends -/

theorem Append_index (st : MemoryStore) (sessionID sid : String) (m : Message) :
    mapIndex (MemoryStore.Append st sessionID m).2.data sid []
      = mapIndex st.data sid []
        ++ (if sessionID = sid ∧ (MemoryStore.Append st sessionID m).1 = none then [m] else []) := by
  unfold MemoryStore.Append
  by_cases h0 : sessionID = ""
  · simp [h0]
  · by_cases hs : sessionID = sid
    · subst hs
      simp [h0, mapIndex_mapSet_same]
    · simp [h0, hs, mapIndex_mapSet_other]

theorem appendAll_index (calls : List (String × Message)) (st : MemoryStore) (sid : String) :
    mapIndex (appendAll st calls).2.data sid []
      = mapIndex st.data sid [] ++ succeededFor sid calls (appendAll st calls).1 := by
  induction calls generalizing st with
  | nil => simp [appendAll, succeededFor]
  | cons c rest ih =>
    obtain ⟨sessionID, m⟩ := c
    simp only [appendAll, succeededFor]
    rw [ih, Append_index]
    split <;> simp_all

theorem succeededFor_eq_filter (calls : List (String × Message)) (st : MemoryStore) (sid : String)
    (hs : sid ≠ "") :
    succeededFor sid calls (appendAll st calls).1
      = (calls.filter (fun c => c.1 = sid)).map Prod.snd := by
  induction calls generalizing st with
  | nil => simp [appendAll, succeededFor]
  | cons c rest ih =>
    obtain ⟨sessionID, m⟩ := c
    simp only [appendAll, succeededFor]
    rw [ih]
    by_cases h : sessionID = sid
    · subst h
      simp [MemoryStore.Append, hs]
    · simp [h]

theorem mapIndex_nil (sid : String) : mapIndex ([] : List (String × List Message)) sid [] = [] := rfl

/-- C1: after any sequence of `Append` calls on a fresh store, `Get s` for a
non-empty `s` returns no error and exactly the messages whose `Append` to `s`
succeeded, in call order and unchanged; these are all the messages appended
to `s`, so calls to other sessions do not matter, and a session that was
never appended to reads as the empty sequence. -/
theorem get_after_appends (calls : List (String × Message)) (s : String) (hs : s ≠ "") :
    MemoryStore.Get (appendAll NewMemoryStore calls).2 s
        = (succeededFor s calls (appendAll NewMemoryStore calls).1, none)
      ∧ succeededFor s calls (appendAll NewMemoryStore calls).1
        = (calls.filter (fun c => c.1 = s)).map Prod.snd
      ∧ ((∀ c ∈ calls, c.1 ≠ s) →
          MemoryStore.Get (appendAll NewMemoryStore calls).2 s = ([], none)) := by
  have h1 : MemoryStore.Get (appendAll NewMemoryStore calls).2 s
      = (succeededFor s calls (appendAll NewMemoryStore calls).1, none) := by
    rw [Get_eq, appendAll_index]
    simp [NewMemoryStore, mapIndex_nil]
  have h2 := succeededFor_eq_filter calls NewMemoryStore s hs
  refine ⟨h1, h2, ?_⟩
  intro hnone
  rw [h1, h2]
  have : calls.filter (fun c => decide (c.1 = s)) = [] := by
    simp only [List.filter_eq_nil_iff]
    intro c hc
    simpa using hnone c hc
  rw [this]
  rfl

theorem get_after_appends_witness :
    ("s1" : String) ≠ ""
    ∧ MemoryStore.Get (appendAll NewMemoryStore
        [("s1", ⟨RoleUser, "a", 1⟩), ("", ⟨RoleUser, "b", 2⟩), ("s2", ⟨RoleUser, "c", 3⟩),
         ("s1", ⟨RoleAssistant, "d", 4⟩)]).2 "s1"
      = ([⟨RoleUser, "a", 1⟩, ⟨RoleAssistant, "d", 4⟩], none) := by
  refine ⟨by decide, ?_⟩
  have h := get_after_appends
    [("s1", ⟨RoleUser, "a", 1⟩), ("", ⟨RoleUser, "b", 2⟩), ("s2", ⟨RoleUser, "c", 3⟩),
     ("s1", ⟨RoleAssistant, "d", 4⟩)] "s1" (by decide)
  rw [h.1, h.2.1]
  decide

/-- C2: `Append` returns an error exactly when the session id is empty, and a
failing `Append` leaves the store as it was: no key is added to either map
and no message is stored. -/
theorem append_error_iff (st : MemoryStore) (sessionID : String) (m : Message) :
    ((MemoryStore.Append st sessionID m).1 ≠ none ↔ sessionID = "")
      ∧ ((MemoryStore.Append st sessionID m).1 ≠ none →
          (MemoryStore.Append st sessionID m).2 = st) := by
  unfold MemoryStore.Append
  by_cases h0 : sessionID = "" <;> simp [h0]

theorem append_error_iff_witness :
    (MemoryStore.Append NewMemoryStore "" ⟨RoleUser, "hi", 1⟩).1 ≠ none
      ∧ (MemoryStore.Append NewMemoryStore "" ⟨RoleUser, "hi", 1⟩).2 = NewMemoryStore :=
  ⟨by decide, (append_error_iff NewMemoryStore "" ⟨RoleUser, "hi", 1⟩).2 (by decide)⟩

/-- C3 fails at the fresh store: `Get ""` returns the empty sequence and a
`nil` error. -/
theorem get_empty_id_not_rejected :
    MemoryStore.Get NewMemoryStore "" = ([], none) := by
  decide

/-- C3, amended: `MemoryStore.Get` has no failing path. For every store state
and every session id, the empty one included, `Get` returns a `nil` error; in
a store built by `Append` calls the sequence `Get ""` returns is empty. The
empty id of a history request is turned down by the handler `GetHistory`,
which answers 400 without calling the store: whatever the store
implementation, its state is left as it was, and a store that counts its
`Get` calls keeps its count. -/
theorem get_empty_id_no_error {σ : Type} (S : Store σ) (s : σ) (st : MemoryStore) :
    (MemoryStore.Get st "").2 = none
      ∧ (∀ sid, (MemoryStore.Get st sid).2 = none)
      ∧ (∀ calls, MemoryStore.Get (appendAll NewMemoryStore calls).2 "" = ([], none))
      ∧ Handlers.GetHistory MemoryStore.asStore st "/api/history/"
          = ({ status := 400, body := Body.errorText "missing session_id" }, st)
      ∧ Handlers.GetHistory S s "/api/history/"
          = ({ status := 400, body := Body.errorText "missing session_id" }, s)
      ∧ ∀ n : Nat, Handlers.GetHistory (Store.countingGet S) (s, n) "/api/history/"
          = ({ status := 400, body := Body.errorText "missing session_id" }, (s, n)) := by
  have hhandler : ∀ {τ : Type} (T : Store τ) (t : τ),
      Handlers.GetHistory T t "/api/history/"
        = ({ status := 400, body := Body.errorText "missing session_id" }, t) := by
    intro τ T t
    simp [Handlers.GetHistory]
  refine ⟨by simp [Get_eq], fun sid => by simp [Get_eq], ?_, hhandler _ _, hhandler _ _,
    fun n => hhandler _ _⟩
  intro calls
  rw [Get_eq, appendAll_index]
  have : ∀ (cs : List (String × Message)) (st₀ : MemoryStore),
      succeededFor "" cs (appendAll st₀ cs).1 = [] := by
    intro cs
    induction cs with
    | nil => intro st₀; simp [appendAll, succeededFor]
    | cons c rest ih =>
      intro st₀
      obtain ⟨sessionID, m⟩ := c
      simp only [appendAll, succeededFor]
      rw [ih]
      by_cases h : sessionID = ""
      · simp [h, MemoryStore.Append]
      · simp [h]
  rw [this]
  simp [NewMemoryStore, mapIndex_nil]

/-! ## One chat turn -/

theorem Append_ok (st : MemoryStore) (sid : String) (m : Message) (hs : sid ≠ "") :
    MemoryStore.Append st sid m
      = (none, { st with data := mapSet st.data sid (mapIndex st.data sid [] ++ [m]) }) := by
  simp [MemoryStore.Append, hs]

theorem Append_empty (st : MemoryStore) (m : Message) :
    MemoryStore.Append st "" m = (some (GoError.errorsNew "empty session id"), st) := by
  simp [MemoryStore.Append]

theorem Chat_memory_empty {ε : Type} (eng : Engine ε) (st : MemoryStore) (e : ε)
    (now₁ now₂ : Time) (model prompt : String) :
    Controller.Chat MemoryStore.asStore eng (st, e) now₁ now₂ "" model prompt
      = ((Message.zero, 0, some (GoError.errorsNew "empty session id")), (st, e)) := by
  simp [Controller.Chat, MemoryStore.asStore, Append_empty]

theorem Chat_memory_engine_error {ε : Type} (eng : Engine ε) (st : MemoryStore) (e e₁ : ε)
    (now₁ now₂ : Time) (sid model prompt text : String) (latency : Duration) (err : GoError)
    (hs : sid ≠ "") (hgen : eng.Generate e model prompt = ((text, latency, some err), e₁)) :
    Controller.Chat MemoryStore.asStore eng (st, e) now₁ now₂ sid model prompt
      = ((Message.zero, 0, some err),
          ({ st with data := mapSet st.data sid (mapIndex st.data sid []
              ++ [{ Role := RoleUser, Content := prompt, Timestamp := now₁ }]) }, e₁)) := by
  simp [Controller.Chat, MemoryStore.asStore, Append_ok _ _ _ hs, hgen]

theorem Chat_memory_success {ε : Type} (eng : Engine ε) (st : MemoryStore) (e e₁ : ε)
    (now₁ now₂ : Time) (sid model prompt text : String) (latency : Duration)
    (hs : sid ≠ "") (hgen : eng.Generate e model prompt = ((text, latency, none), e₁)) :
    Controller.Chat MemoryStore.asStore eng (st, e) now₁ now₂ sid model prompt
      = (({ Role := RoleAssistant, Content := text, Timestamp := now₂ }, latency, none),
          ({ st with data := (mapSet (mapSet st.data sid (mapIndex st.data sid []
              ++ [{ Role := RoleUser, Content := prompt, Timestamp := now₁ }])) sid
              (mapIndex st.data sid []
                ++ [{ Role := RoleUser, Content := prompt, Timestamp := now₁ }]
                ++ [{ Role := RoleAssistant, Content := text, Timestamp := now₂ }])) }, e₁)) := by
  simp [Controller.Chat, MemoryStore.asStore, Append_ok _ _ _ hs, hgen, mapIndex_mapSet_same]

/-- C4: with a non-empty session id and an engine whose `Generate` fails,
`Chat` returns the engine's error (with the zero message and zero latency);
afterwards the session reads as its previous transcript followed by the one
user message holding the prompt, and every other session reads as before. -/
theorem chat_engine_failure {ε : Type} (eng : Engine ε) (st : MemoryStore) (e e₁ : ε)
    (now₁ now₂ : Time) (sid model prompt text : String) (latency : Duration) (err : GoError)
    (hs : sid ≠ "") (hgen : eng.Generate e model prompt = ((text, latency, some err), e₁)) :
    (Controller.Chat MemoryStore.asStore eng (st, e) now₁ now₂ sid model prompt).1
        = (Message.zero, 0, some err)
      ∧ MemoryStore.Get
          (Controller.Chat MemoryStore.asStore eng (st, e) now₁ now₂ sid model prompt).2.1 sid
        = ((MemoryStore.Get st sid).1
            ++ [{ Role := RoleUser, Content := prompt, Timestamp := now₁ }], none)
      ∧ ∀ other, other ≠ sid →
          MemoryStore.Get
            (Controller.Chat MemoryStore.asStore eng (st, e) now₁ now₂ sid model prompt).2.1 other
          = MemoryStore.Get st other := by
  rw [Chat_memory_engine_error eng st e e₁ now₁ now₂ sid model prompt text latency err hs hgen]
  refine ⟨rfl, ?_, ?_⟩
  · simp [Get_eq, mapIndex_mapSet_same]
  · intro other hne
    simp [Get_eq, mapIndex_mapSet_other _ _ _ _ _ (Ne.symm hne)]

theorem chat_engine_failure_witness :
    MemoryStore.Get
        (Controller.Chat MemoryStore.asStore failingEngine (NewMemoryStore, ()) 1 2
          "s1" "demo-model" "hello").2.1 "s1"
      = ([{ Role := RoleUser, Content := "hello", Timestamp := 1 }], none) :=
  (chat_engine_failure failingEngine NewMemoryStore () () 1 2 "s1" "demo-model" "hello" "" 0
    (GoError.external "connection refused") (by decide) rfl).2.1

/-- C5: with a non-empty session id and an engine whose `Generate` returns
`(text, latency)` and no error, `Chat` returns the assistant message holding
`text`, the engine's `latency` and no error; afterwards the session reads as
its previous transcript followed by the user message and then the assistant
message, and every other session reads as before. -/
theorem chat_engine_success {ε : Type} (eng : Engine ε) (st : MemoryStore) (e e₁ : ε)
    (now₁ now₂ : Time) (sid model prompt text : String) (latency : Duration)
    (hs : sid ≠ "") (hgen : eng.Generate e model prompt = ((text, latency, none), e₁)) :
    (Controller.Chat MemoryStore.asStore eng (st, e) now₁ now₂ sid model prompt).1
        = ({ Role := RoleAssistant, Content := text, Timestamp := now₂ }, latency, none)
      ∧ MemoryStore.Get
          (Controller.Chat MemoryStore.asStore eng (st, e) now₁ now₂ sid model prompt).2.1 sid
        = ((MemoryStore.Get st sid).1
            ++ [{ Role := RoleUser, Content := prompt, Timestamp := now₁ },
                { Role := RoleAssistant, Content := text, Timestamp := now₂ }], none)
      ∧ ∀ other, other ≠ sid →
          MemoryStore.Get
            (Controller.Chat MemoryStore.asStore eng (st, e) now₁ now₂ sid model prompt).2.1 other
          = MemoryStore.Get st other := by
  rw [Chat_memory_success eng st e e₁ now₁ now₂ sid model prompt text latency hs hgen]
  refine ⟨rfl, ?_, ?_⟩
  · simp [Get_eq, mapIndex_mapSet_same]
  · intro other hne
    simp [Get_eq, mapIndex_mapSet_other _ _ _ _ _ (Ne.symm hne)]

theorem chat_engine_success_witness :
    MemoryStore.Get
        (Controller.Chat MemoryStore.asStore ((NewEchoEngine 30000000).asEngine 5)
          (NewMemoryStore, 0) 1 2 "s1" "demo-model" "hello").2.1 "s1"
      = ([{ Role := RoleUser, Content := "hello", Timestamp := 1 },
          { Role := RoleAssistant, Content := "(demo:demo-model) you said: hello",
            Timestamp := 2 }], none) :=
  (chat_engine_success ((NewEchoEngine 30000000).asEngine 5) NewMemoryStore 0 30000005 1 2
    "s1" "demo-model" "hello" "(demo:demo-model) you said: hello" 30000005
    (by decide) (by decide)).2.1

/-- C7: whatever the store implementation, when its `Append` of the user
message fails `Chat` returns that error with the store as that one `Append`
call left it and the engine in the state it had: run on a store that records
its `Append` calls and an engine that counts its `Generate` calls, the record
grows by the user message only and the count stays as it was. With
`MemoryStore` the `Append` of the user message fails exactly for the empty
session id, and then `Chat` leaves the store unchanged. -/
theorem chat_append_failure {σ ε : Type} (S : Store σ) (eng : Engine ε) (st st₁ : σ) (e : ε)
    (now₁ now₂ : Time) (sid model prompt : String) (err : GoError)
    (hfail : S.Append st sid { Role := RoleUser, Content := prompt, Timestamp := now₁ }
      = (some err, st₁)) :
    Controller.Chat S eng (st, e) now₁ now₂ sid model prompt
        = ((Message.zero, 0, some err), (st₁, e))
      ∧ (∀ (log : List (String × Message)) (n : Nat),
          Controller.Chat (Store.recording S) (Engine.counting eng) ((st, log), (e, n))
              now₁ now₂ sid model prompt
            = ((Message.zero, 0, some err),
                ((st₁, log ++ [(sid, { Role := RoleUser, Content := prompt, Timestamp := now₁ })]),
                  (e, n))))
      ∧ (∀ (ms : MemoryStore) (id : String),
          ((MemoryStore.asStore.Append ms id
              { Role := RoleUser, Content := prompt, Timestamp := now₁ }).1 ≠ none ↔ id = "")
          ∧ Controller.Chat MemoryStore.asStore eng (ms, e) now₁ now₂ "" model prompt
              = ((Message.zero, 0, some (GoError.errorsNew "empty session id")), (ms, e))) := by
  refine ⟨?_, ?_, ?_⟩
  · simp [Controller.Chat, hfail]
  · intro log n
    simp [Controller.Chat, Store.recording, hfail]
  · intro ms id
    constructor
    · by_cases h0 : id = "" <;> simp [MemoryStore.asStore, MemoryStore.Append, h0]
    · exact Chat_memory_empty eng ms e now₁ now₂ model prompt

theorem chat_append_failure_witness :
    Controller.Chat (Store.recording MemoryStore.asStore)
        (Engine.counting ((NewEchoEngine 0).asEngine 5))
        ((NewMemoryStore, []), (0, 0)) 1 2 "" "demo-model" "hello"
      = ((Message.zero, 0, some (GoError.errorsNew "empty session id")),
          ((NewMemoryStore, [("", { Role := RoleUser, Content := "hello", Timestamp := 1 })]),
            (0, 0))) :=
  (chat_append_failure MemoryStore.asStore ((NewEchoEngine 0).asEngine 5) NewMemoryStore
    NewMemoryStore 0 1 2 "" "demo-model" "hello" (GoError.errorsNew "empty session id")
    (by decide)).2.1 [] 0

/-! ## Sequences of chat turns -/

theorem Chat_memory_transcript {ε : Type} (eng : Engine ε) (st : MemoryStore) (e : ε)
    (c : ChatCall) (sid : String) :
    (MemoryStore.Get
        (Controller.Chat MemoryStore.asStore eng (st, e) c.now₁ c.now₂ c.sessionID c.model
          c.prompt).2.1 sid).1
      = (MemoryStore.Get st sid).1 ++ turnOf eng e c sid := by
  by_cases h0 : c.sessionID = ""
  · rw [h0, Chat_memory_empty]
    simp [turnOf, h0]
  · rcases hg : eng.Generate e c.model c.prompt with ⟨⟨text, latency, oerr⟩, e₁⟩
    cases oerr with
    | some err =>
      rw [Chat_memory_engine_error eng st e e₁ c.now₁ c.now₂ c.sessionID c.model c.prompt text
        latency err h0 hg]
      by_cases hs : c.sessionID = sid
      · subst hs
        simp [turnOf, h0, hg, Get_eq, mapIndex_mapSet_same]
      · simp [turnOf, hs, Get_eq, mapIndex_mapSet_other _ _ _ _ _ hs]
    | none =>
      rw [Chat_memory_success eng st e e₁ c.now₁ c.now₂ c.sessionID c.model c.prompt text
        latency h0 hg]
      by_cases hs : c.sessionID = sid
      · subst hs
        simp [turnOf, h0, hg, Get_eq, mapIndex_mapSet_same]
      · simp [turnOf, hs, Get_eq, mapIndex_mapSet_other _ _ _ _ _ hs]

theorem turnOf_cases {ε : Type} (eng : Engine ε) (e : ε) (c : ChatCall) (sid : String) :
    turnOf eng e c sid = []
      ∨ turnOf eng e c sid = [{ Role := RoleUser, Content := c.prompt, Timestamp := c.now₁ }]
      ∨ ∃ text latency e₁, c.sessionID = sid
          ∧ eng.Generate e c.model c.prompt = ((text, latency, none), e₁)
          ∧ turnOf eng e c sid
            = [{ Role := RoleUser, Content := c.prompt, Timestamp := c.now₁ },
               { Role := RoleAssistant, Content := text, Timestamp := c.now₂ }] := by
  by_cases h : c.sessionID = sid ∧ c.sessionID ≠ ""
  · obtain ⟨h1, h2⟩ := h
    subst h1
    rcases hg : eng.Generate e c.model c.prompt with ⟨⟨text, latency, oerr⟩, e₁⟩
    cases oerr with
    | some err => right; left; simp [turnOf, h2, hg]
    | none => right; right; exact ⟨text, latency, e₁, rfl, rfl, by simp [turnOf, h2, hg]⟩
  · left; simp only [turnOf, h, if_false]

theorem roleUser_ne_roleAssistant : RoleUser ≠ RoleAssistant := by decide

theorem split_at_turn (T pre post turn : List Message) (a : Message)
    (h : T ++ turn = pre ++ a :: post) :
    (∃ post₀, T = pre ++ a :: post₀) ∨ ∃ mid, pre = T ++ mid ∧ turn = mid ++ a :: post := by
  rcases List.append_eq_append_iff.1 h with ⟨mid, h1, h2⟩ | ⟨rest, h1, h2⟩
  · exact Or.inr ⟨mid, h1, h2⟩
  · cases rest with
    | nil =>
      right
      refine ⟨[], ?_, ?_⟩
      · simpa using h1.symm
      · simpa using h2.symm
    | cons x rest₀ =>
      left
      simp only [List.cons_append, List.cons.injEq] at h2
      exact ⟨rest₀, by rw [h1, h2.1]⟩

theorem runChats_assistant {ε : Type} (eng : Engine ε) (calls : List ChatCall) :
    ∀ (st : MemoryStore) (e : ε) (sid : String) (pre post : List Message) (a : Message),
      (MemoryStore.Get (runChats eng (st, e) calls).1 sid).1 = pre ++ a :: post →
      a.Role = RoleAssistant →
      (∃ post₀, (MemoryStore.Get st sid).1 = pre ++ a :: post₀)
      ∨ ∃ (cs₁ cs₂ : List ChatCall) (c : ChatCall) (text : String) (latency : Duration) (e₁ : ε),
          calls = cs₁ ++ c :: cs₂ ∧ c.sessionID = sid
          ∧ eng.Generate (runChats eng (st, e) cs₁).2 c.model c.prompt
              = ((text, latency, none), e₁)
          ∧ pre = (MemoryStore.Get (runChats eng (st, e) cs₁).1 sid).1
              ++ [{ Role := RoleUser, Content := c.prompt, Timestamp := c.now₁ }]
          ∧ a = { Role := RoleAssistant, Content := text, Timestamp := c.now₂ } := by
  induction calls with
  | nil =>
    intro st e sid pre post a hget _
    exact Or.inl ⟨post, by simpa [runChats] using hget⟩
  | cons c cs ih =>
    intro st e sid pre post a hget ha
    simp only [runChats] at hget
    rcases ih _ _ sid pre post a hget ha with
      ⟨post₀, h0⟩ | ⟨cs₁, cs₂, c₁, text, latency, e₁, hcalls, hsid, hgen, hpre, hmsg⟩
    · rw [Chat_memory_transcript] at h0
      rcases split_at_turn _ _ _ _ _ h0 with hl | ⟨mid, hpre, hturn⟩
      · exact Or.inl hl
      · right
        rcases turnOf_cases eng e c sid with ht | ht | ⟨text, latency, e₁, hsid, hgen, ht⟩
        · rw [ht] at hturn
          simp at hturn
        · rw [ht] at hturn
          cases mid with
          | nil =>
            simp only [List.nil_append, List.cons.injEq] at hturn
            rw [← hturn.1] at ha
            exact absurd ha roleUser_ne_roleAssistant
          | cons x mid₀ => simp at hturn
        · rw [ht] at hturn
          cases mid with
          | nil =>
            simp only [List.nil_append, List.cons.injEq] at hturn
            rw [← hturn.1] at ha
            exact absurd ha roleUser_ne_roleAssistant
          | cons x mid₀ =>
            cases mid₀ with
            | nil =>
              simp only [List.cons_append, List.nil_append, List.cons.injEq] at hturn
              refine ⟨[], cs, c, text, latency, e₁, rfl, hsid, ?_, ?_, hturn.2.1.symm⟩
              · simpa [runChats] using hgen
              · rw [hpre, ← hturn.1]
                simp [runChats]
            | cons y mid₁ => simp at hturn
    · right
      refine ⟨c :: cs₁, cs₂, c₁, text, latency, e₁, ?_, hsid, ?_, ?_, hmsg⟩
      · rw [hcalls]; rfl
      · simpa [runChats] using hgen
      · simpa [runChats] using hpre

/-- C8: along any sequence of sequential `Controller.Chat` calls on a fresh
`MemoryStore`, with any engine, every assistant message `a` found in the
transcript of a session `sid` stands right after a user message `u`, and the
two come from one `Chat` call `c` of the sequence made for `sid`: the
transcript up to `u` is what the session held when `c` started, `u` holds the
prompt of `c`, and `a` holds the text the engine generated for `c`. -/
theorem assistant_preceded_by_user {ε : Type} (eng : Engine ε) (e₀ : ε) (calls : List ChatCall)
    (sid : String) (pre post : List Message) (a : Message)
    (hget : (MemoryStore.Get (runChats eng (NewMemoryStore, e₀) calls).1 sid).1
      = pre ++ a :: post)
    (ha : a.Role = RoleAssistant) :
    ∃ (before : List Message) (u : Message), pre = before ++ [u] ∧ u.Role = RoleUser
      ∧ ∃ (cs₁ cs₂ : List ChatCall) (c : ChatCall) (text : String) (latency : Duration) (e₁ : ε),
          calls = cs₁ ++ c :: cs₂ ∧ c.sessionID = sid
          ∧ before = (MemoryStore.Get (runChats eng (NewMemoryStore, e₀) cs₁).1 sid).1
          ∧ eng.Generate (runChats eng (NewMemoryStore, e₀) cs₁).2 c.model c.prompt
              = ((text, latency, none), e₁)
          ∧ u = { Role := RoleUser, Content := c.prompt, Timestamp := c.now₁ }
          ∧ a = { Role := RoleAssistant, Content := text, Timestamp := c.now₂ } := by
  rcases runChats_assistant eng calls NewMemoryStore e₀ sid pre post a hget ha with
    ⟨post₀, h0⟩ | ⟨cs₁, cs₂, c, text, latency, e₁, hcalls, hsid, hgen, hpre, hmsg⟩
  · simp [Get_eq, NewMemoryStore, mapIndex_nil] at h0
  · exact ⟨_, _, hpre, rfl, cs₁, cs₂, c, text, latency, e₁, hcalls, hsid, rfl, hgen, rfl, hmsg⟩

theorem assistant_preceded_by_user_witness :
    ∃ (before : List Message) (u : Message),
      [{ Role := RoleUser, Content := "ping", Timestamp := 1 },
       { Role := RoleUser, Content := "again", Timestamp := 5 }] = before ++ [u]
      ∧ u.Role = RoleUser
      ∧ ∃ (cs₁ cs₂ : List ChatCall) (c : ChatCall) (text : String) (latency : Duration)
          (e₁ : List (Option String)),
          [{ sessionID := "s1", model := "m", prompt := "ping", now₁ := 1, now₂ := 2 },
           { sessionID := "s2", model := "m", prompt := "other", now₁ := 3, now₂ := 4 },
           { sessionID := "s1", model := "m", prompt := "again", now₁ := 5, now₂ := 6 }]
            = cs₁ ++ c :: cs₂
          ∧ c.sessionID = "s1"
          ∧ before = (MemoryStore.Get
              (runChats scriptedEngine (NewMemoryStore, [none, some "a", some "pong"]) cs₁).1
              "s1").1
          ∧ scriptedEngine.Generate
              (runChats scriptedEngine (NewMemoryStore, [none, some "a", some "pong"]) cs₁).2
              c.model c.prompt = ((text, latency, none), e₁)
          ∧ u = { Role := RoleUser, Content := c.prompt, Timestamp := c.now₁ }
          ∧ { Role := RoleAssistant, Content := "pong", Timestamp := 6 }
              = ({ Role := RoleAssistant, Content := text, Timestamp := c.now₂ } : Message) :=
  assistant_preceded_by_user scriptedEngine [none, some "a", some "pong"]
    [{ sessionID := "s1", model := "m", prompt := "ping", now₁ := 1, now₂ := 2 },
     { sessionID := "s2", model := "m", prompt := "other", now₁ := 3, now₂ := 4 },
     { sessionID := "s1", model := "m", prompt := "again", now₁ := 5, now₂ := 6 }]
    "s1"
    [{ Role := RoleUser, Content := "ping", Timestamp := 1 },
     { Role := RoleUser, Content := "again", Timestamp := 5 }]
    []
    { Role := RoleAssistant, Content := "pong", Timestamp := 6 }
    (by decide) (by decide)

/-! ## The echo engine -/

theorem Sprintf_demo (model prompt : String) :
    Sprintf "(demo:%s) you said: %s" [model, prompt]
      = "(demo:" ++ model ++ ") you said: " ++ prompt := by
  apply String.ext
  simp [Sprintf, sprintfAux]

/-- C9: for every minimum latency, clock reading and pair `(model, prompt)`,
`EchoEngine.Generate` returns a `nil` error and the text
`"(demo:" ++ model ++ ") you said: " ++ prompt`, which holds `model` and
`prompt` verbatim and is the same for every engine configuration and clock. -/
theorem echo_generate (e : EchoEngine) (start : Time) (overhead : Nat) (model prompt : String) :
    (e.Generate start overhead model prompt).2.2 = none
      ∧ (e.Generate start overhead model prompt).1
        = "(demo:" ++ model ++ ") you said: " ++ prompt
      ∧ Contains (e.Generate start overhead model prompt).1 model
      ∧ Contains (e.Generate start overhead model prompt).1 prompt
      ∧ ∀ (e₂ : EchoEngine) (start₂ : Time) (overhead₂ : Nat),
          (e₂.Generate start₂ overhead₂ model prompt).1
            = (e.Generate start overhead model prompt).1 := by
  have htext : ∀ (e₂ : EchoEngine) (start₂ : Time) (overhead₂ : Nat),
      (e₂.Generate start₂ overhead₂ model prompt).1
        = "(demo:" ++ model ++ ") you said: " ++ prompt := by
    intro e₂ start₂ overhead₂
    simp only [EchoEngine.Generate, Sprintf_demo]
  refine ⟨rfl, htext e start overhead, ?_, ?_, ?_⟩
  · rw [htext]
    exact ⟨"(demo:".data, (") you said: " ++ prompt).data, by simp [String.data_append]⟩
  · rw [htext]
    exact ⟨("(demo:" ++ model ++ ") you said: ").data, [], by simp [String.data_append]⟩
  · intro e₂ start₂ overhead₂
    rw [htext, htext]

/-! ## The model registries -/

theorem StaticManager_healthy_iff (m : StaticManager) (model : String) :
    (StaticManager.Healthy m model = none ↔ model ∈ m.items)
      ∧ (model ∉ m.items →
          StaticManager.Healthy m model = some (GoError.errorsNew "unknown model")) := by
  obtain ⟨items⟩ := m
  simp only [StaticManager.Healthy]
  induction items with
  | nil => simp [StaticManager.healthyFrom]
  | cons x rest ih =>
    by_cases h : x = model
    · simp [StaticManager.healthyFrom, h]
    · have h2 : ¬ model = x := fun hx => h hx.symm
      simpa [StaticManager.healthyFrom, h, h2] using ih

theorem OllamaManager_healthy_iff (items : List ollama.TagModel) (model : String) :
    (OllamaManager.Healthy (items, none) model = none ↔ model ∈ items.map (fun it => it.Name))
      ∧ (model ∉ items.map (fun it => it.Name) →
          OllamaManager.Healthy (items, none) model = some ErrUnknownModel) := by
  simp only [OllamaManager.Healthy]
  induction items with
  | nil => simp [OllamaManager.healthyFrom]
  | cons x rest ih =>
    by_cases h : x.Name = model
    · simp [OllamaManager.healthyFrom, h]
    · have h2 : ¬ model = x.Name := fun hx => h hx.symm
      simpa [OllamaManager.healthyFrom, h, h2] using ih

/-- C10 at a model name that is in neither list: the remote registry fails
with the package variable `ErrUnknownModel`, the static registry with a value
made by `errors.New` on the spot, which is not `ErrUnknownModel`. -/
theorem static_healthy_error_differs :
    StaticManager.Healthy (NewStaticManager ["llama2", "mistral", "phi3"]) "gemma3:270m"
        = some (GoError.errorsNew "unknown model")
      ∧ OllamaManager.Healthy
          ([{ Name := "llama2", Model := "llama2", Digest := "", Size := 0, ModifiedAt := 0 }],
            none) "gemma3:270m"
        = some ErrUnknownModel
      ∧ StaticManager.Healthy (NewStaticManager ["llama2", "mistral", "phi3"]) "gemma3:270m"
        ≠ some ErrUnknownModel := by
  decide

/-! ## One readiness attempt -/

open main

theorem mapHas_mapSet {κ ν : Type} [DecidableEq κ] (m : List (κ × ν)) (k k₂ : κ) (v : ν) :
    mapHas (mapSet m k v) k₂ = true ↔ k = k₂ ∨ mapHas m k₂ = true := by
  induction m with
  | nil => simp [mapSet, mapHas]
  | cons p rest ih =>
    obtain ⟨k', v'⟩ := p
    by_cases h : k' = k
    · subst h
      by_cases h2 : k' = k₂ <;> simp [mapSet, mapHas, h2]
    · by_cases h2 : k' = k₂
      · subst h2
        simp [mapSet, mapHas, h]
      · simp [mapSet, mapHas, h, h2, ih]

theorem mapHas_foldl (tags : List TagModel) (h : List (String × Unit)) (m : String) :
    mapHas (tags.foldl (fun h t => mapSet h t.Name ()) h) m = true
      ↔ mapHas h m = true ∨ m ∈ tags.map (fun t => t.Name) := by
  induction tags generalizing h with
  | nil => simp
  | cons t rest ih =>
    simp only [List.foldl_cons, ih, mapHas_mapSet, List.map_cons, List.mem_cons]
    constructor
    · rintro ((h1 | h1) | h1)
      · exact Or.inr (Or.inl h1.symm)
      · exact Or.inl h1
      · exact Or.inr (Or.inr h1)
    · rintro (h1 | h1 | h1)
      · exact Or.inl (Or.inr h1)
      · exact Or.inl (Or.inl h1.symm)
      · exact Or.inr h1

theorem mapHas_haveOf (tags : List TagModel) (m : String) :
    mapHas (haveOf tags) m = true ↔ m ∈ tags.map (fun t => t.Name) := by
  simp [haveOf, mapHas_foldl, mapHas]

theorem checkModels_eq_none (haveSet : List (String × Unit)) (models : List String) :
    checkModels haveSet models = none ↔ ∀ m ∈ models, mapHas haveSet m = true := by
  induction models with
  | nil => simp [checkModels]
  | cons m rest ih =>
    by_cases h : mapHas haveSet m = true
    · simp [checkModels, h, ih]
    · simp [checkModels, h]

theorem Ping_logging {ρ : Type} (N : Net ρ) (oc : Client) (k : ρ) (log : List Request) :
    Client.Ping (Net.logging N) oc (k, log)
      = ((Client.Ping N oc k).1,
          ((Client.Ping N oc k).2,
            log ++ [{ Method := "GET", URL := Sprintf "%s/api/version" [oc.baseURL],
                      Payload := Payload.none }])) := by
  simp only [Client.Ping, Net.logging]
  generalize N.Do k ⟨"GET", Sprintf "%s/api/version" [oc.baseURL], Payload.none⟩ = d
  obtain ⟨r, k₁⟩ := d
  cases r with
  | error err => rfl
  | ok res => by_cases h : res.StatusCode > 400 <;> simp [h]

/-- C11: one readiness attempt succeeds exactly when the ping succeeds and,
if any model is required, the tag listing made after the ping succeeds and
every required name is the name of one of its tags. With no required model
the attempt succeeds exactly when the ping succeeds and makes no request but
the ping: it leaves the network as the ping left it, and a network that
records its requests has recorded the one `GET` of the ping. -/
theorem check_succeeds_iff {ρ : Type} (N : Net ρ) (oc : Client) (models : List String) (k : ρ) :
    ((waitForOllama.check N oc models k).1 = none
        ↔ (Client.Ping N oc k).1 = none
          ∧ (models = []
              ∨ ∃ tags, (Client.Tags N oc (Client.Ping N oc k).2).1 = (tags, none)
                  ∧ ∀ m ∈ models, m ∈ tags.map (fun t => t.Name)))
      ∧ ((waitForOllama.check N oc [] k).1 = none ↔ (Client.Ping N oc k).1 = none)
      ∧ (waitForOllama.check N oc [] k).2 = (Client.Ping N oc k).2
      ∧ ∀ log : List Request,
          (waitForOllama.check (Net.logging N) oc [] (k, log)).2.2
            = log ++ [{ Method := "GET", URL := Sprintf "%s/api/version" [oc.baseURL],
                        Payload := Payload.none }] := by
  have hnil : ∀ {σ : Type} (M : Net σ) (s : σ),
      ((waitForOllama.check M oc [] s).1 = none ↔ (Client.Ping M oc s).1 = none)
        ∧ (waitForOllama.check M oc [] s).2 = (Client.Ping M oc s).2 := by
    intro σ M s
    simp only [waitForOllama.check]
    rcases Client.Ping M oc s with ⟨r, s₁⟩
    cases r <;> simp
  refine ⟨?_, (hnil N k).1, (hnil N k).2, ?_⟩
  · simp only [waitForOllama.check]
    rcases Client.Ping N oc k with ⟨r, k₁⟩
    cases r with
    | some err => simp
    | none =>
      by_cases hm : models = []
      · simp [hm]
      · have hlen : ¬ models.length = 0 := by simpa using hm
        simp only [hlen, if_false, true_and, hm, false_or]
        rcases Client.Tags N oc k₁ with ⟨⟨tags, oerr⟩, k₂⟩
        cases oerr with
        | some err => simp
        | none => simp [checkModels_eq_none, mapHas_haveOf]
  · intro log
    rw [(hnil (Net.logging N) (k, log)).2, Ping_logging]

/-! ## The polling loop -/

theorem attemptOk_zero {ρ : Type} (N : Net ρ) (oc : Client) (models : List String) (k : ρ) :
    attemptOk N oc models k 0 ↔ (waitForOllama.check N oc models k).1 = none := Iff.rfl

theorem attemptOk_succ {ρ : Type} (N : Net ρ) (oc : Client) (models : List String) (k : ρ)
    (i : Nat) :
    attemptOk N oc models k (i + 1)
      ↔ attemptOk N oc models (waitForOllama.check N oc models k).2 i := Iff.rfl

/-- The result of a run that has passed `n` ticks before the end of its trace
or its first `done`, when the attempts are numbered from the current state. -/
theorem loop_result {ρ : Type} (N : Net ρ) (oc : Client) (models : List String)
    (events : List Event) :
    ∀ k : ρ,
      ((∃ i, i < ticksBefore events ∧ attemptOk N oc models k i) →
          (waitForOllama.loop N oc models k events).1 = WaitResult.returned none)
      ∧ ((∀ i, i < ticksBefore events → ¬ attemptOk N oc models k i) →
          (waitForOllama.loop N oc models k events).1
            = (match firstDone events with
               | some err => WaitResult.returned (some err)
               | none => WaitResult.blocked)) := by
  induction events with
  | nil =>
    intro k
    simp [ticksBefore, firstDone, waitForOllama.loop]
  | cons ev rest ih =>
    intro k
    cases ev with
    | done err => simp [ticksBefore, firstDone, waitForOllama.loop]
    | tick =>
      simp only [ticksBefore, firstDone, waitForOllama.loop]
      rcases hc : waitForOllama.check N oc models k with ⟨r, k₁⟩
      have h0 : attemptOk N oc models k 0 ↔ r = none := by
        rw [attemptOk_zero, hc]
      have hs : ∀ i, attemptOk N oc models k (i + 1) ↔ attemptOk N oc models k₁ i := by
        intro i
        rw [attemptOk_succ, hc]
      cases r with
      | none =>
        refine ⟨fun _ => rfl, fun hall => ?_⟩
        exact absurd (h0.2 rfl) (hall 0 (Nat.succ_pos _))
      | some err =>
        have hne : ¬ attemptOk N oc models k 0 := fun h => by simpa using h0.1 h
        constructor
        · rintro ⟨i, hi, hok⟩
          cases i with
          | zero => exact absurd hok hne
          | succ j =>
            exact (ih k₁).1 ⟨j, Nat.lt_of_succ_lt_succ hi, (hs j).1 hok⟩
        · intro hall
          exact (ih k₁).2 fun i hi hok => hall (i + 1) (Nat.succ_lt_succ hi) ((hs i).2 hok)

theorem waitForOllama_result {ρ : Type} (N : Net ρ) (oc : Client) (models : List String)
    (interval : Duration) (k : ρ) (events : List Event) (hpos : 0 < interval) :
    ((∃ i, i ≤ ticksBefore events ∧ attemptOk N oc models k i) →
        (waitForOllama N oc models interval k events).1 = WaitResult.returned none)
      ∧ ((∀ i, i ≤ ticksBefore events → ¬ attemptOk N oc models k i) →
          (waitForOllama N oc models interval k events).1
            = (match firstDone events with
               | some err => WaitResult.returned (some err)
               | none => WaitResult.blocked)) := by
  have hint : ¬ interval ≤ 0 := not_le.2 hpos
  simp only [waitForOllama, hint, if_false]
  rcases hc : waitForOllama.check N oc models k with ⟨r, k₁⟩
  have h0 : attemptOk N oc models k 0 ↔ r = none := by
    rw [attemptOk_zero, hc]
  have hs : ∀ i, attemptOk N oc models k (i + 1) ↔ attemptOk N oc models k₁ i := by
    intro i
    rw [attemptOk_succ, hc]
  cases r with
  | none =>
    refine ⟨fun _ => rfl, fun hall => ?_⟩
    exact absurd (h0.2 rfl) (hall 0 (Nat.zero_le _))
  | some err =>
    have hne : ¬ attemptOk N oc models k 0 := fun h => by simpa using h0.1 h
    constructor
    · rintro ⟨i, hi, hok⟩
      cases i with
      | zero => exact absurd hok hne
      | succ j =>
        exact (loop_result N oc models events k₁).1 ⟨j, Nat.lt_of_succ_le hi, (hs j).1 hok⟩
    · intro hall
      exact (loop_result N oc models events k₁).2
        fun i hi hok => hall (i + 1) (Nat.succ_le_of_lt hi) ((hs i).2 hok)

/-- C12: for a positive interval, over a trace of ticks and `done` events that
follow the immediate attempt (attempt `0`; attempt `i` is the one made on
tick `i`), `waitForOllama` returns `nil` exactly when one of the attempts up
to the last tick before the first `done` succeeds, all attempts before it
having failed; it returns the error of the context exactly when the trace
has a `done` and every attempt made before it failed; and it is still
waiting at the end of the trace exactly when the trace has no `done` and
every attempt failed. -/
theorem waitForOllama_outcome {ρ : Type} (N : Net ρ) (oc : Client) (models : List String)
    (interval : Duration) (k : ρ) (events : List Event) (hpos : 0 < interval) :
    ((waitForOllama N oc models interval k events).1 = WaitResult.returned none
        ↔ ∃ i, i ≤ ticksBefore events ∧ attemptOk N oc models k i
            ∧ ∀ j, j < i → ¬ attemptOk N oc models k j)
      ∧ (∀ err, (waitForOllama N oc models interval k events).1
            = WaitResult.returned (some err)
          ↔ firstDone events = some err
            ∧ ∀ i, i ≤ ticksBefore events → ¬ attemptOk N oc models k i)
      ∧ ((waitForOllama N oc models interval k events).1 = WaitResult.blocked
          ↔ firstDone events = none
            ∧ ∀ i, i ≤ ticksBefore events → ¬ attemptOk N oc models k i) := by
  classical
  have hres := waitForOllama_result N oc models interval k events hpos
  by_cases hex : ∃ i, i ≤ ticksBefore events ∧ attemptOk N oc models k i
  · have hr := hres.1 hex
    have hno : ¬ ∀ i, i ≤ ticksBefore events → ¬ attemptOk N oc models k i := by
      intro hall
      obtain ⟨i, hi, hok⟩ := hex
      exact hall i hi hok
    refine ⟨⟨fun _ => ?_, fun _ => hr⟩, fun err => ⟨fun h => ?_, fun h => absurd h.2 hno⟩,
      ⟨fun h => ?_, fun h => absurd h.2 hno⟩⟩
    · refine ⟨Nat.find hex, (Nat.find_spec hex).1, (Nat.find_spec hex).2, fun j hj hok => ?_⟩
      exact Nat.find_min hex hj ⟨le_trans (le_of_lt hj) (Nat.find_spec hex).1, hok⟩
    · rw [hr] at h
      simp at h
    · rw [hr] at h
      simp at h
  · have hall : ∀ i, i ≤ ticksBefore events → ¬ attemptOk N oc models k i :=
      fun i hi hok => hex ⟨i, hi, hok⟩
    have hr := hres.2 hall
    have hno : ¬ ∃ i, i ≤ ticksBefore events ∧ attemptOk N oc models k i
        ∧ ∀ j, j < i → ¬ attemptOk N oc models k j :=
      fun ⟨i, hi, hok, _⟩ => hex ⟨i, hi, hok⟩
    rw [hr]
    cases hd : firstDone events with
    | none =>
      simp [hall, hno]
      exact hall
    | some e =>
      simp [hall, hno]
      exact hall

theorem waitForOllama_outcome_witness :
    (0 : Duration) < 2
      ∧ (waitForOllama scriptedNet (NewClient "http://h") ["a"] 2
          [Except.ok ⟨500, "500 Internal Server Error", "boom"⟩,
           Except.ok ⟨200, "200 OK", ""⟩, Except.ok ⟨200, "200 OK", "b"⟩]
          [Event.tick, Event.done (GoError.external "context deadline exceeded"),
           Event.tick]).1
        = WaitResult.returned (some (GoError.external "context deadline exceeded"))
      ∧ (firstDone [Event.tick, Event.done (GoError.external "context deadline exceeded"),
            Event.tick] = some (GoError.external "context deadline exceeded")
          ∧ ∀ i, i ≤ ticksBefore [Event.tick,
                Event.done (GoError.external "context deadline exceeded"), Event.tick] →
              ¬ attemptOk scriptedNet (NewClient "http://h") ["a"]
                [Except.ok ⟨500, "500 Internal Server Error", "boom"⟩,
                 Except.ok ⟨200, "200 OK", ""⟩, Except.ok ⟨200, "200 OK", "b"⟩] i) :=
  ⟨by decide, by decide,
    ((waitForOllama_outcome scriptedNet (NewClient "http://h") ["a"] 2
        [Except.ok ⟨500, "500 Internal Server Error", "boom"⟩,
         Except.ok ⟨200, "200 OK", ""⟩, Except.ok ⟨200, "200 OK", "b"⟩]
        [Event.tick, Event.done (GoError.external "context deadline exceeded"), Event.tick]
        (by decide)).2.1 (GoError.external "context deadline exceeded")).1 (by decide)⟩

/-! ## Choice of the backend at startup -/

theorem choose_of_ping {ρ : Type} (N : Net ρ) (oc : Client) (k : ρ) :
    ((Client.Ping N oc k).1 = none →
        (choose N oc k).1
          = { engine := EngineChoice.ollama oc, modelsMgr := ManagerChoice.ollama oc,
              ollamaActive := true, Admin := some oc })
      ∧ ((Client.Ping N oc k).1 ≠ none →
        (choose N oc k).1
          = { engine := EngineChoice.echo (NewEchoEngine 30000000),
              modelsMgr := ManagerChoice.static (NewStaticManager ["llama2", "mistral", "phi3"]),
              ollamaActive := false, Admin := none }) := by
  simp only [choose]
  rcases Client.Ping N oc k with ⟨r, k₁⟩
  cases r with
  | none => simp
  | some err => simp

/-- C13: whether the probe is disabled or has returned, with `nil` or with
the error of the context, `main` goes on to the final ping, made in the
state the probe left, and what it activates depends on the result of that
ping alone. If the ping succeeds: the Ollama engine, the registry backed by
the client, and the route `POST /admin/models/pull`. If it fails: the echo
engine with 30 ms latency, the static registry of `llama2`, `mistral` and
`phi3`, and no admin route. -/
theorem startup_choice {ρ : Type} (N : Net ρ) (ollamaURL : String) (waitEnabled : Bool)
    (waitInterval : Duration) (waitModels : List String) (events : List Event) (k kp : ρ)
    (hprobe : (waitEnabled = false ∧ kp = k)
      ∨ (waitEnabled = true
          ∧ ∃ r, waitForOllama N (NewClient ollamaURL) waitModels waitInterval k events
              = (WaitResult.returned r, kp))) :
    startup N ollamaURL waitEnabled waitInterval waitModels events k
        = (some (choose N (NewClient ollamaURL) kp).1, (Client.Ping N (NewClient ollamaURL) kp).2)
      ∧ ((Client.Ping N (NewClient ollamaURL) kp).1 = none →
          (choose N (NewClient ollamaURL) kp).1
              = { engine := EngineChoice.ollama (NewClient ollamaURL),
                  modelsMgr := ManagerChoice.ollama (NewClient ollamaURL),
                  ollamaActive := true, Admin := some (NewClient ollamaURL) }
            ∧ ("POST", "/admin/models/pull")
                ∈ RegisterRoutes (choose N (NewClient ollamaURL) kp).1.Admin)
      ∧ ((Client.Ping N (NewClient ollamaURL) kp).1 ≠ none →
          (choose N (NewClient ollamaURL) kp).1
              = { engine := EngineChoice.echo (NewEchoEngine 30000000),
                  modelsMgr :=
                    ManagerChoice.static (NewStaticManager ["llama2", "mistral", "phi3"]),
                  ollamaActive := false, Admin := none }
            ∧ ("POST", "/admin/models/pull")
                ∉ RegisterRoutes (choose N (NewClient ollamaURL) kp).1.Admin) := by
  have hstate : (choose N (NewClient ollamaURL) kp).2
      = (Client.Ping N (NewClient ollamaURL) kp).2 := by
    simp only [choose]
    rcases Client.Ping N (NewClient ollamaURL) kp with ⟨r, k₁⟩
    cases r <;> rfl
  refine ⟨?_, fun hok => ?_, fun hfail => ?_⟩
  · rcases hprobe with ⟨hw, hk⟩ | ⟨hw, r, hr⟩
    · subst hk
      simp [startup, hw, hstate]
    · simp [startup, hw, hr, hstate]
  · rw [(choose_of_ping N (NewClient ollamaURL) kp).1 hok]
    exact ⟨rfl, by simp [RegisterRoutes]⟩
  · rw [(choose_of_ping N (NewClient ollamaURL) kp).2 hfail]
    exact ⟨rfl, by simp [RegisterRoutes]⟩

theorem startup_choice_witness :
    startup scriptedNet "http://h" true 2 ["a"]
        [Event.tick, Event.done (GoError.external "context deadline exceeded")]
        [Except.ok ⟨200, "200 OK", ""⟩, Except.ok ⟨200, "200 OK", "b"⟩,
         Except.ok ⟨200, "200 OK", ""⟩, Except.ok ⟨200, "200 OK", "b"⟩,
         Except.ok ⟨200, "200 OK", ""⟩]
      = (some { engine := EngineChoice.ollama (NewClient "http://h"),
                modelsMgr := ManagerChoice.ollama (NewClient "http://h"),
                ollamaActive := true, Admin := some (NewClient "http://h") }, []) := by
  have h := startup_choice scriptedNet "http://h" true 2 ["a"]
    [Event.tick, Event.done (GoError.external "context deadline exceeded")]
    [Except.ok ⟨200, "200 OK", ""⟩, Except.ok ⟨200, "200 OK", "b"⟩,
     Except.ok ⟨200, "200 OK", ""⟩, Except.ok ⟨200, "200 OK", "b"⟩,
     Except.ok ⟨200, "200 OK", ""⟩]
    [Except.ok ⟨200, "200 OK", ""⟩]
    (Or.inr ⟨rfl, some (GoError.external "context deadline exceeded"), rfl⟩)
  rw [h.1, (h.2.1 (by decide)).1]
  rfl

/-! ## Status codes in the client -/

theorem Errorf_generate (body : String) :
    (Errorf "ollama generate: %s" [Operand.str body]).Error = "ollama generate: " ++ body := by
  apply String.ext
  simp [Errorf, GoError.Error, sprintfOps, Operand.format]

theorem Errorf_pull (body : String) :
    (Errorf "ollama pull: %s" [Operand.str body]).Error = "ollama pull: " ++ body := by
  apply String.ext
  simp [Errorf, GoError.Error, sprintfOps, Operand.format]

theorem Errorf_tags (status : String) :
    (Errorf "ollama tags: %s" [Operand.str status]).Error = "ollama tags: " ++ status := by
  apply String.ext
  simp [Errorf, GoError.Error, sprintfOps, Operand.format]

theorem Errorf_ping (code : Int) :
    (Errorf "ollama ping status: %d" [Operand.int code]).Error
      = "ollama ping status: " ++ toString code := by
  apply String.ext
  simp [Errorf, GoError.Error, sprintfOps, Operand.format]

theorem Contains_append_right (pre body : String) : Contains (pre ++ body) body :=
  ⟨pre.data, [], by simp [String.data_append]⟩

/-- C14 fails for two of the four calls: on a 500 response with body `boom`
the error of `Tags` reads `ollama tags: 500 Internal Server Error` and does
not hold the body, and on a 400 response `Ping` returns `nil`. -/
theorem client_error_without_body :
    (Client.Tags scriptedNet (NewClient "http://h")
        [Except.ok ⟨500, "500 Internal Server Error", "boom"⟩]).1.2
        = some (GoError.errorf "ollama tags: 500 Internal Server Error")
      ∧ ¬ Contains (GoError.errorf "ollama tags: 500 Internal Server Error").Error "boom"
      ∧ (Client.Ping scriptedNet (NewClient "http://h")
          [Except.ok ⟨400, "400 Bad Request", "bad"⟩]).1 = none := by
  refine ⟨by decide, ?_, by decide⟩
  unfold Contains
  decide

/-- C14, amended: on a response with status code 400 or more, `Generate`
and `Pull` (for a non-empty name) return an error whose text is their prefix
followed by the response body, and `Tags` returns an error whose text is its
prefix followed by the status line of the response; on a response with
status code above 400, `Ping` returns an error whose text is its prefix
followed by the status code. -/
theorem client_status_errors {ρ : Type} (N : Net ρ) (c : Client) (k k₁ : ρ) (res : HttpResponse)
    (elapsed : Duration) (model prompt name : String) (hstatus : res.StatusCode ≥ 400) :
    (N.Do k ⟨"POST", Sprintf "%s/api/generate" [c.baseURL], Payload.generate model prompt false⟩
          = (Except.ok res, k₁) →
        ∃ err, (Client.Generate N c elapsed k model prompt).1 = ("", 0, some err)
          ∧ err.Error = "ollama generate: " ++ res.Body ∧ Contains err.Error res.Body)
      ∧ (name ≠ "" →
          N.Do k ⟨"POST", Sprintf "%s/api/pull" [c.baseURL], Payload.pull name false⟩
            = (Except.ok res, k₁) →
          ∃ err, (Client.Pull N c k name).1 = some err
            ∧ err.Error = "ollama pull: " ++ res.Body ∧ Contains err.Error res.Body)
      ∧ (N.Do k ⟨"GET", Sprintf "%s/api/tags" [c.baseURL], Payload.none⟩
            = (Except.ok res, k₁) →
          ∃ err, (Client.Tags N c k).1 = ([], some err)
            ∧ err.Error = "ollama tags: " ++ res.Status ∧ Contains err.Error res.Status)
      ∧ (res.StatusCode > 400 →
          N.Do k ⟨"GET", Sprintf "%s/api/version" [c.baseURL], Payload.none⟩
            = (Except.ok res, k₁) →
          ∃ err, (Client.Ping N c k).1 = some err
            ∧ err.Error = "ollama ping status: " ++ toString res.StatusCode
            ∧ Contains err.Error (toString res.StatusCode)) := by
  refine ⟨fun hdo => ?_, fun hname hdo => ?_, fun hdo => ?_, fun hgt hdo => ?_⟩
  · refine ⟨Errorf "ollama generate: %s" [Operand.str res.Body], ?_, Errorf_generate _, ?_⟩
    · simp [Client.Generate, hdo, hstatus]
    · rw [Errorf_generate]
      exact Contains_append_right _ _
  · refine ⟨Errorf "ollama pull: %s" [Operand.str res.Body], ?_, Errorf_pull _, ?_⟩
    · simp [Client.Pull, hname, hdo, hstatus]
    · rw [Errorf_pull]
      exact Contains_append_right _ _
  · refine ⟨Errorf "ollama tags: %s" [Operand.str res.Status], ?_, Errorf_tags _, ?_⟩
    · simp [Client.Tags, hdo, hstatus]
    · rw [Errorf_tags]
      exact Contains_append_right _ _
  · refine ⟨Errorf "ollama ping status: %d" [Operand.int res.StatusCode], ?_, Errorf_ping _, ?_⟩
    · simp [Client.Ping, hdo, hgt]
    · rw [Errorf_ping]
      exact Contains_append_right _ _

theorem client_status_errors_witness :
    ∃ err, (Client.Generate scriptedNet (NewClient "http://h") 7
          [Except.ok ⟨400, "400 Bad Request", "bad"⟩] "m" "p").1 = ("", 0, some err)
      ∧ err.Error = "ollama generate: " ++ "bad" ∧ Contains err.Error "bad" :=
  (client_status_errors scriptedNet (NewClient "http://h")
    [Except.ok ⟨400, "400 Bad Request", "bad"⟩] [] ⟨400, "400 Bad Request", "bad"⟩ 7 "m" "p"
    "m" (by decide)).1 rfl

/-! ## The models handler -/

/-- C15 at the registry backed by a runtime whose only tag is `gemma3:270m`:
the registry lists that one name, and `ListModels` answers with the fixed
names `llama2`, `mistral` and `phi3`, which is not what the registry lists. -/
theorem listModels_ignores_registry :
    ((OllamaManager.asManager (fixedTagsNet ["gemma3:270m"]) (NewClient "http://h")).List ()).1
        = (["gemma3:270m"], none)
      ∧ (Handlers.ListModels
          (OllamaManager.asManager (fixedTagsNet ["gemma3:270m"]) (NewClient "http://h")) ()).1
        = { status := 200, body := Body.models ["llama2", "mistral", "phi3"] }
      ∧ (Handlers.ListModels
          (OllamaManager.asManager (fixedTagsNet ["gemma3:270m"]) (NewClient "http://h")) ()).1
        ≠ { status := 200, body := Body.models ["gemma3:270m"] } := by
  decide

end ZeroDowntime
